import Mathlib

/-! # Pizza controller (`controllers/pizza_controller.go`)

A shallow embedding of the reconciler of the `resturant` operator: the
`Reconcile` transition function, the closure `isJobFinished`, the index
key-extraction function registered by `SetupWithManager`, and `PrepareSpec`.

The orchestration client (`client.Client`) is an interface in the Go code; it is
embedded as a record of operations over an explicit store state, so that
`Reconcile` is a state-passing function that also records, in order, every
client call it issues and every log line it writes.
-/

set_option autoImplicit false

namespace Controllers

/-! ## Kubernetes object model (the fields the controller reads or writes) -/

/-- Errors returned by the collaborators, by reason. The library predicate
`apierrors.IsNotFound` recognises exactly the `notFound` reason. -/
inductive Error where
  | notFound (msg : String)
  | alreadyExists (msg : String)
  | conflict (msg : String)
  | notRegistered (msg : String)
  | other (msg : String)
deriving DecidableEq, Repr

/-- The library function `client.IgnoreNotFound` (controller-runtime): nil for a not-found
error, the error itself otherwise. -/
def IgnoreNotFound : Option Error → Option Error
  | some (Error.notFound _) => none
  | e => e

/-- The library type `schema.GroupVersion` (apimachinery). -/
structure GroupVersion where
  Group : String
  Version : String
deriving DecidableEq, Repr

/-- The library type `schema.GroupVersionKind` (apimachinery). -/
structure GroupVersionKind where
  Group : String
  Version : String
  Kind : String
deriving DecidableEq, Repr

/-- The library method `GroupVersion.String` (apimachinery): `group/version`, or the bare
version for the empty group. -/
def GroupVersion.String (gv : GroupVersion) : String :=
  if gv.Group.length > 0 then gv.Group ++ "/" ++ gv.Version else gv.Version

/-- The library method `GroupVersionKind.GroupVersion` (apimachinery). -/
def GroupVersionKind.GroupVersion (gvk : GroupVersionKind) : GroupVersion :=
  { Group := gvk.Group, Version := gvk.Version }

/-- The library type `metav1.OwnerReference`; the two pointer-to-bool fields are options. -/
structure OwnerReference where
  APIVersion : String
  Kind : String
  Name : String
  UID : String
  Controller : Option Bool
  BlockOwnerDeletion : Option Bool
deriving DecidableEq, Repr

/-- The library type `metav1.ObjectMeta`, with the fields the controller touches. A Go map
is `none` when nil and `some []` when made empty. -/
structure ObjectMeta where
  Name : String := ""
  Namespace : String := ""
  UID : String := ""
  Labels : Option (List (String × String)) := none
  Annotations : Option (List (String × String)) := none
  OwnerReferences : List OwnerReference := []
deriving DecidableEq, Repr

/-- The library type `kbatch.JobSpec`, an execution template the controller copies
wholesale and never inspects; the pod template is kept as an uninterpreted token. -/
structure JobSpec where
  Parallelism : Option Int := none
  Completions : Option Int := none
  ActiveDeadlineSeconds : Option Int := none
  BackoffLimit : Option Int := none
  Template : String := ""
deriving DecidableEq, Repr

/-- The library type `kbatch.JobCondition`: `Type_` (the field `Type`, a reserved word here) is
a `JobConditionType` string and `Status` a `corev1.ConditionStatus` string. -/
structure JobCondition where
  Type_ : String
  Status : String
  Reason : String := ""
  Message : String := ""
deriving DecidableEq, Repr

/-- The library constant `kbatch.JobComplete`. -/
def JobComplete : String := "Complete"

/-- The library constant `kbatch.JobFailed`. -/
def JobFailed : String := "Failed"

/-- The library constant `corev1.ConditionTrue`. -/
def ConditionTrue : String := "True"

/-- The library type `kbatch.JobStatus`, with its condition list. -/
structure JobStatus where
  Conditions : List JobCondition := []
deriving DecidableEq, Repr

/-- The library type `kbatch.Job`. -/
structure Job where
  ObjectMeta : ObjectMeta := {}
  Spec : JobSpec := {}
  Status : JobStatus := {}
deriving DecidableEq, Repr

/-- The library type `JobTemplateSpec` held by the Pizza spec. -/
structure JobTemplateSpec where
  Spec : JobSpec := {}
deriving DecidableEq, Repr

/-- Modelled from the spec: the spec record of `resturantv1.Pizza` (declared in
`resturant/api/v1`, not among the sources): it carries the job template. -/
structure PizzaSpec where
  JobTemplate : JobTemplateSpec := {}
deriving DecidableEq, Repr

/-- Modelled from the spec: the status record of `resturantv1.Pizza` (declared in
`resturant/api/v1`, not among the sources): an integer `Price` and the phase string,
which the controller writes as `pizza.Status.Status`. -/
structure PizzaStatus where
  Price : Int := 0
  Status : String := ""
deriving DecidableEq, Repr

/-- Modelled from the spec: the Order resource `resturantv1.Pizza` (declared in
`resturant/api/v1`, not among the sources): identity, job template and status. -/
structure Pizza where
  ObjectMeta : ObjectMeta := {}
  Spec : PizzaSpec := {}
  Status : PizzaStatus := {}
deriving DecidableEq, Repr

/-- The library type `types.NamespacedName`. -/
structure NamespacedName where
  Namespace : String
  Name : String
deriving DecidableEq, Repr

/-- The library type `ctrl.Request`. -/
structure Request where
  NamespacedName : NamespacedName
deriving DecidableEq, Repr

/-- The promoted field `req.Namespace`. -/
def Request.Namespace (req : Request) : String := req.NamespacedName.Namespace

/-- The promoted field `req.Name`. -/
def Request.Name (req : Request) : String := req.NamespacedName.Name

/-- The library type `ctrl.Result`; the empty literal of the source is the default value. -/
structure Result where
  Requeue : Bool := false
  RequeueAfter : Nat := 0
deriving DecidableEq, Repr

/-! ## Package-level variables -/

/-- The package variable `jobOwnerKey`. -/
def jobOwnerKey : String := ".metadata.controller"

/-- The package variable `apiGVStr`, `resturantv1.GroupVersion.String()`; the group/version
value is declared in `resturant/api/v1` and is taken as a parameter. -/
def apiGVStr (gv : GroupVersion) : String := gv.String

/-! ## Collaborators -/

/-- The library function `metav1.GetControllerOf` (apimachinery): the first owner reference
whose `Controller` flag is set and true, if any. -/
def GetControllerOf (job : Job) : Option OwnerReference :=
  job.ObjectMeta.OwnerReferences.find? (fun ref => ref.Controller == some true)

/-- The type-scheme registry `runtime.Scheme`, reduced to the one lookup the controller
causes: the group/version/kind registered for the Pizza type, if any. -/
structure Scheme where
  pizzaGVK : Option GroupVersionKind
deriving DecidableEq, Repr

/-- The library function `metav1.NewControllerRef` (apimachinery) applied to a Pizza owner. -/
def NewControllerRef (owner : Pizza) (gvk : GroupVersionKind) : OwnerReference :=
  { APIVersion := gvk.GroupVersion.String
    Kind := gvk.Kind
    Name := owner.ObjectMeta.Name
    UID := owner.ObjectMeta.UID
    BlockOwnerDeletion := some true
    Controller := some true }

/-- Modelled from the spec: the ownership stamping API `ctrl.SetControllerReference`
(controller-runtime, not among the sources): it attaches the ownership back-reference
to the child and fails if the parent type is not registered in the scheme. -/
def SetControllerReference (owner : Pizza) (job : Job) (scheme : Scheme) : Except Error Job :=
  match scheme.pizzaGVK with
  | none => Except.error (Error.notRegistered "no kind is registered for the type v1.Pizza")
  | some gvk =>
    Except.ok { job with ObjectMeta := { job.ObjectMeta with
      OwnerReferences := job.ObjectMeta.OwnerReferences ++ [NewControllerRef owner gvk] } }

/-- The store read/write API `client.Client` over a store state `σ`: the four calls the
reconciler makes. Reads return a value or an error; writes return the error (nil on
success) and the next store state. -/
structure Client (σ : Type) where
  Get : σ → NamespacedName → Except Error Pizza
  List : σ → String → String → String → Except Error (List Job)
  StatusUpdate : σ → Pizza → Option Error × σ
  Create : σ → Job → Option Error × σ

/-- The Go struct `PizzaReconciler`; the logger is represented by the log lines collected
in the outcome. -/
structure PizzaReconciler (σ : Type) where
  Client : Client σ
  Scheme : Scheme

/-- A client call issued by the reconciler. -/
inductive Call where
  | get (key : NamespacedName)
  | list (ns : String) (field : String) (value : String)
  | statusUpdate (pizza : Pizza)
  | create (job : Job)
deriving DecidableEq, Repr

/-- A line written to the logger. -/
inductive LogEntry where
  | error (err : Error) (msg : String)
  | info (msg : String)
deriving DecidableEq, Repr

/-- What one invocation of `Reconcile` yields: the returned pair, the client calls
issued in order, the log lines, and the store state afterwards. -/
structure Outcome (σ : Type) where
  result : Result
  err : Option Error
  calls : List Call
  logs : List LogEntry
  store : σ

/-! ## The controller -/

/-- The closure `isJobFinished` of `Reconcile`. -/
def isJobFinished (job : Job) : Bool × String :=
  let rec loop : List JobCondition → Bool × String
    | [] => (false, "")
    | c :: cs =>
      if (c.Type_ = JobComplete ∨ c.Type_ = JobFailed) ∧ c.Status = ConditionTrue then
        (true, c.Type_)
      else loop cs
  loop job.Status.Conditions

/-- The Job literal that `PrepareSpec` builds before stamping it: the name is
`fmt.Sprintf("%s-%d", pizza.Name, now)`, the maps are made empty, the spec is a deep copy of
the template spec (a value, so the copy is the value itself). -/
def PrepareSpec.job (now : Int) (pizza : Pizza) : Job :=
  let name := pizza.ObjectMeta.Name ++ "-" ++ toString now
  { ObjectMeta :=
      { Labels := some []
        Annotations := some []
        Name := name
        Namespace := pizza.ObjectMeta.Namespace }
    Spec := pizza.Spec.JobTemplate.Spec }

/-- The method `PrepareSpec`, with the reading of the clock `time.Now().Unix()` as the
argument `now`. -/
def PrepareSpec {σ : Type} (r : PizzaReconciler σ) (now : Int) (pizza : Pizza) :
    Except Error Job :=
  let job := PrepareSpec.job now pizza
  match SetControllerReference pizza job r.Scheme with
  | Except.error err => Except.error err
  | Except.ok job => Except.ok job

/-- The method `Reconcile`, with the store state `s` threaded through the client calls
and the reading of the clock as the argument `now`. -/
def Reconcile {σ : Type} (r : PizzaReconciler σ) (now : Int) (s : σ) (req : Request) :
    Outcome σ :=
  match r.Client.Get s req.NamespacedName with
  | Except.error err =>
    { result := {}, err := IgnoreNotFound (some err)
      calls := [Call.get req.NamespacedName]
      logs := [LogEntry.error err "unable to fetch Pizza"]
      store := s }
  | Except.ok pizza =>
    let calls := [Call.get req.NamespacedName, Call.list req.Namespace jobOwnerKey req.Name]
    match r.Client.List s req.Namespace jobOwnerKey req.Name with
    | Except.error err =>
      { result := {}, err := some err, calls := calls
        logs := [LogEntry.info ("Empty ChildList" ++ req.Name)]
        store := s }
    | Except.ok childJobs =>
      if h : childJobs.length > 0 then
        let logs := [LogEntry.info (toString childJobs.length)]
        let pizza :=
          if (isJobFinished childJobs[0]).1 then
            { pizza with Status := { Price := 123, Status := "Ready to Pickup" } }
          else
            { pizza with Status := { pizza.Status with Status := "Preparingg Pizza" } }
        match r.Client.StatusUpdate s pizza with
        | (some err, s1) =>
          { result := {}, err := some err, calls := calls ++ [Call.statusUpdate pizza]
            logs := logs ++ [LogEntry.error err "unable to update Pizza status"]
            store := s1 }
        | (none, s1) =>
          { result := {}, err := none, calls := calls ++ [Call.statusUpdate pizza]
            logs := logs, store := s1 }
      else
        match PrepareSpec r now pizza with
        | Except.error err =>
          { result := {}, err := some err, calls := calls
            logs := [LogEntry.error err "unable to construct job from template"]
            store := s }
        | Except.ok job =>
          match r.Client.Create s job with
          | (some err, s1) =>
            { result := {}, err := some err, calls := calls ++ [Call.create job]
              logs := [LogEntry.error err "unable to create Job"]
              store := s1 }
          | (none, s1) =>
            { result := {}, err := none, calls := calls ++ [Call.create job]
              logs := [], store := s1 }

/-- The key-extraction function registered with the field indexer in `SetupWithManager`;
a nil slice is the empty list. -/
def indexFunc (apiGVStr : String) (job : Job) : List String :=
  match GetControllerOf job with
  | none => []
  | some owner =>
    if owner.APIVersion ≠ apiGVStr ∨ owner.Kind ≠ "Pizza" then []
    else [owner.Name]

/-! ## An in-memory store

The store is an external collaborator. The model below gives it a concrete state so that
statements about what is left in the store can be made: Orders and Jobs are held in
lists, the owner-name index registered by `SetupWithManager` is evaluated on query, and any
call can be made to fail by a fault plan. -/

/-- Modelled from the spec: the state of the orchestration store (external, not among
the sources): the Orders and the Jobs it holds, Jobs in creation order. -/
structure MemStore where
  pizzas : List Pizza := []
  jobs : List Job := []
deriving DecidableEq, Repr

/-- Whether a stored Order has the given identity. -/
def pizzaHasKey (key : NamespacedName) (p : Pizza) : Bool :=
  p.ObjectMeta.Namespace == key.Namespace && p.ObjectMeta.Name == key.Name

/-- Whether a stored Job has the given identity. -/
def jobHasKey (key : NamespacedName) (j : Job) : Bool :=
  j.ObjectMeta.Namespace == key.Namespace && j.ObjectMeta.Name == key.Name

/-- Modelled from the spec: `get(identity) -> Order | NotFound` of the store. -/
def MemStore.get (s : MemStore) (key : NamespacedName) : Except Error Pizza :=
  match s.pizzas.find? (pizzaHasKey key) with
  | some p => Except.ok p
  | none => Except.error (Error.notFound key.Name)

/-- Modelled from the spec: `list(namespace, filter) -> [Job]` of the store, for a
matching-field filter: the Jobs of the namespace for which the index function registered
under the field name yields the value. Only `jobOwnerKey` is registered. -/
def MemStore.list (gv : GroupVersion) (s : MemStore) (ns field value : String) :
    Except Error (List Job) :=
  if field = jobOwnerKey then
    Except.ok (s.jobs.filter
      (fun j => j.ObjectMeta.Namespace == ns && (indexFunc (apiGVStr gv) j).contains value))
  else Except.error (Error.other ("index does not exist: " ++ field))

/-- Modelled from the spec: `updateStatus(Order) -> Order | error` of the store: the
status sub-record of the stored Order of that identity is replaced. -/
def MemStore.updateStatus (s : MemStore) (p : Pizza) : Option Error × MemStore :=
  let key : NamespacedName := { Namespace := p.ObjectMeta.Namespace, Name := p.ObjectMeta.Name }
  if s.pizzas.any (pizzaHasKey key) then
    let updated :=
      s.pizzas.map (fun q => if pizzaHasKey key q then { q with Status := p.Status } else q)
    (none, { s with pizzas := updated })
  else (some (Error.notFound key.Name), s)

/-- Modelled from the spec: `create(Job) -> Job | error` of the store: the Job is added
unless one of that identity exists. -/
def MemStore.create (s : MemStore) (j : Job) : Option Error × MemStore :=
  let key : NamespacedName := { Namespace := j.ObjectMeta.Namespace, Name := j.ObjectMeta.Name }
  if s.jobs.any (jobHasKey key) then (some (Error.alreadyExists key.Name), s)
  else (none, { s with jobs := s.jobs ++ [j] })

/-- The client over the in-memory store, with the index of `SetupWithManager` registered. -/
def memClient (gv : GroupVersion) : Client MemStore :=
  { Get := MemStore.get
    List := MemStore.list gv
    StatusUpdate := MemStore.updateStatus
    Create := MemStore.create }

/-- A fault plan: for each client call, the error it is made to fail with, if any. -/
structure Faults where
  get : Option Error := none
  list : Option Error := none
  statusUpdate : Option Error := none
  create : Option Error := none
deriving DecidableEq, Repr

/-- A client whose calls fail as the fault plan says and otherwise behave as those of `c`;
a failed write leaves the store as it was. -/
def withFaults {σ : Type} (f : Faults) (c : Client σ) : Client σ :=
  { Get := fun s key =>
      match f.get with
      | some e => Except.error e
      | none => c.Get s key
    List := fun s ns field value =>
      match f.list with
      | some e => Except.error e
      | none => c.List s ns field value
    StatusUpdate := fun s p =>
      match f.statusUpdate with
      | some e => (some e, s)
      | none => c.StatusUpdate s p
    Create := fun s j =>
      match f.create with
      | some e => (some e, s)
      | none => c.Create s j }

/-- The reconciler wired to the in-memory store under a fault plan. -/
def memReconciler (gv : GroupVersion) (scheme : Scheme) (f : Faults) : PizzaReconciler MemStore :=
  { Client := withFaults f (memClient gv), Scheme := scheme }

/-- The phase stored for the Order of the given identity, if the Order exists. -/
def storedPhase (s : MemStore) (key : NamespacedName) : Option String :=
  match s.get key with
  | Except.ok p => some p.Status.Status
  | Except.error _ => none

/-- The Jobs of the store that the owner-name index lists for the request. -/
def ownedJobs (gv : GroupVersion) (s : MemStore) (req : Request) : List Job :=
  match MemStore.list gv s req.Namespace jobOwnerKey req.Name with
  | Except.ok js => js
  | Except.error _ => []

/-- What happens between two observations of the store: an invocation of `Reconcile` at a
clock reading under a fault plan, or a change made by anyone else. -/
inductive Event where
  | reconcile (now : Int) (faults : Faults)
  | external (change : MemStore → MemStore)

/-- One invocation of `Reconcile` in a run: the store and fault plan it started from and
what it yielded. -/
structure Step where
  pre : MemStore
  faults : Faults
  out : Outcome MemStore

/-- The invocations of `Reconcile` for one request along a sequence of events. -/
def runEvents (gv : GroupVersion) (scheme : Scheme) (req : Request) :
    MemStore → List Event → List Step
  | _, [] => []
  | s, Event.reconcile now f :: evs =>
    let out := Reconcile (memReconciler gv scheme f) now s req
    { pre := s, faults := f, out := out } :: runEvents gv scheme req out.store evs
  | s, Event.external change :: evs => runEvents gv scheme req (change s) evs

/-- The premise of convergence at a step: the reconciler loads the Order, and the first
Job its list query returns has a condition of type Complete with status True. -/
def firstOwnedJobComplete (gv : GroupVersion) (req : Request) (f : Faults) (s : MemStore) :
    Prop :=
  (∃ pizza, (withFaults f (memClient gv)).Get s req.NamespacedName = Except.ok pizza) ∧
  ∃ job rest,
    (withFaults f (memClient gv)).List s req.Namespace jobOwnerKey req.Name
      = Except.ok (job :: rest) ∧
    ∃ c ∈ job.Status.Conditions, c.Type_ = "Complete" ∧ c.Status = "True"

/-! ## Sample objects -/

/-- The API group/version of the operator in the samples. -/
def sampleGV : GroupVersion := { Group := "resturant.foodie.io", Version := "v1" }

/-- A scheme in which the Pizza type is registered under the sample group/version. -/
def sampleScheme : Scheme :=
  { pizzaGVK := some { Group := "resturant.foodie.io", Version := "v1", Kind := "Pizza" } }

/-- A scheme in which the Pizza type is not registered. -/
def emptyScheme : Scheme := { pizzaGVK := none }

/-- The Order `margherita` with an empty template. -/
def margherita : Pizza :=
  { ObjectMeta := { Name := "margherita", Namespace := "default", UID := "uid-1" } }

/-- The request naming the Order `margherita`. -/
def margheritaReq : Request :=
  { NamespacedName := { Namespace := "default", Name := "margherita" } }

/-- The ownership back-reference to `margherita`. -/
def margheritaRef : OwnerReference :=
  { APIVersion := "resturant.foodie.io/v1", Kind := "Pizza", Name := "margherita"
    UID := "uid-1", Controller := some true, BlockOwnerDeletion := some true }

/-- A Job owned by `margherita` with the given conditions. -/
def ownedJob (conds : List JobCondition) : Job :=
  { ObjectMeta :=
      { Name := "margherita-1600000000", Namespace := "default", Labels := some []
        Annotations := some [], OwnerReferences := [margheritaRef] }
    Status := { Conditions := conds } }

/-- A store holding `margherita` and no Job. -/
def storeNoJob : MemStore := { pizzas := [margherita], jobs := [] }

/-- A store holding `margherita` and one owned Job without conditions. -/
def storeRunning : MemStore := { pizzas := [margherita], jobs := [ownedJob []] }

/-- A store holding `margherita` and one owned Job reporting (Complete, True). -/
def storeComplete : MemStore :=
  { pizzas := [margherita], jobs := [ownedJob [{ Type_ := "Complete", Status := "True" }]] }

/-- A store holding neither Order nor Job. -/
def storeEmpty : MemStore := {}

/-- A run for the witness of convergence: a reconcile, a reconcile whose status update is made
to fail with a conflict, the arrival of a second owned Job without conditions, and a
reconcile. -/
def sampleEvents : List Event :=
  [Event.reconcile 1600000000 {},
   Event.reconcile 1600000060 { statusUpdate := some (Error.conflict "version mismatch") },
   Event.external (fun s => { s with jobs := s.jobs ++
     [{ ownedJob [] with ObjectMeta :=
        { (ownedJob []).ObjectMeta with Name := "margherita-1600000100" } }] }),
   Event.reconcile 1600000120 {}]

/-! # Theorems -/

/-! ## Lemmas on `isJobFinished` -/

theorem isJobFinished_loop_false (conds : List JobCondition)
    (h : ∀ c ∈ conds, ¬((c.Type_ = "Complete" ∨ c.Type_ = "Failed") ∧ c.Status = "True")) :
    isJobFinished.loop conds = (false, "") := by
  induction conds with
  | nil => rfl
  | cons c cs ih =>
    have hc := h c (List.mem_cons_self c cs)
    have hcs : ∀ d ∈ cs, ¬((d.Type_ = "Complete" ∨ d.Type_ = "Failed") ∧ d.Status = "True") :=
      fun d hd => h d (List.mem_cons_of_mem c hd)
    simp only [isJobFinished.loop, JobComplete, JobFailed, ConditionTrue]
    rw [if_neg hc]
    exact ih hcs

theorem isJobFinished_loop_split (conds : List JobCondition)
    (h : ∃ c ∈ conds, (c.Type_ = "Complete" ∨ c.Type_ = "Failed") ∧ c.Status = "True") :
    ∃ pre c post, conds = pre ++ c :: post ∧
      (∀ d ∈ pre, ¬((d.Type_ = "Complete" ∨ d.Type_ = "Failed") ∧ d.Status = "True")) ∧
      ((c.Type_ = "Complete" ∨ c.Type_ = "Failed") ∧ c.Status = "True") ∧
      isJobFinished.loop conds = (true, c.Type_) := by
  induction conds with
  | nil =>
    obtain ⟨c, hc, _⟩ := h
    cases hc
  | cons c cs ih =>
    by_cases hc : (c.Type_ = "Complete" ∨ c.Type_ = "Failed") ∧ c.Status = "True"
    · refine ⟨[], c, cs, rfl, ?_, hc, ?_⟩
      · intro d hd
        cases hd
      · simp only [isJobFinished.loop, JobComplete, JobFailed, ConditionTrue]
        rw [if_pos hc]
    · have hcs : ∃ d ∈ cs, (d.Type_ = "Complete" ∨ d.Type_ = "Failed") ∧ d.Status = "True" := by
        obtain ⟨d, hd, hfin⟩ := h
        rcases List.mem_cons.mp hd with rfl | hd
        · exact absurd hfin hc
        · exact ⟨d, hd, hfin⟩
      obtain ⟨pre, d, post, hsplit, hpre, hd, hloop⟩ := ih hcs
      refine ⟨c :: pre, d, post, by rw [hsplit]; rfl, ?_, hd, ?_⟩
      · intro e he
        rcases List.mem_cons.mp he with rfl | he
        · exact hc
        · exact hpre e he
      · simp only [isJobFinished.loop, JobComplete, JobFailed, ConditionTrue]
        rw [if_neg hc]
        exact hloop

theorem isJobFinished_true_of_finished (job : Job)
    (h : ∃ c ∈ job.Status.Conditions,
      (c.Type_ = "Complete" ∨ c.Type_ = "Failed") ∧ c.Status = "True") :
    (isJobFinished job).1 = true := by
  obtain ⟨_, _, _, _, _, _, hloop⟩ := isJobFinished_loop_split job.Status.Conditions h
  simp only [isJobFinished, hloop]

theorem isJobFinished_false_of_unfinished (job : Job)
    (h : ∀ c ∈ job.Status.Conditions,
      ¬((c.Type_ = "Complete" ∨ c.Type_ = "Failed") ∧ c.Status = "True")) :
    isJobFinished job = (false, "") := by
  simp only [isJobFinished, isJobFinished_loop_false job.Status.Conditions h]

/-! ## Lemmas on the branches of `Reconcile` -/

theorem Reconcile_get_error {σ : Type} (r : PizzaReconciler σ) (now : Int) (s : σ)
    (req : Request) (e : Error) (hget : r.Client.Get s req.NamespacedName = Except.error e) :
    Reconcile r now s req =
      { result := {}, err := IgnoreNotFound (some e), calls := [Call.get req.NamespacedName]
        logs := [LogEntry.error e "unable to fetch Pizza"], store := s } := by
  simp only [Reconcile, hget]

theorem Reconcile_list_error {σ : Type} (r : PizzaReconciler σ) (now : Int) (s : σ)
    (req : Request) (pizza : Pizza) (e : Error)
    (hget : r.Client.Get s req.NamespacedName = Except.ok pizza)
    (hlist : r.Client.List s req.Namespace jobOwnerKey req.Name = Except.error e) :
    Reconcile r now s req =
      { result := {}, err := some e
        calls := [Call.get req.NamespacedName, Call.list req.Namespace jobOwnerKey req.Name]
        logs := [LogEntry.info ("Empty ChildList" ++ req.Name)], store := s } := by
  simp only [Reconcile, hget, hlist]

theorem Reconcile_owned {σ : Type} (r : PizzaReconciler σ) (now : Int) (s : σ)
    (req : Request) (pizza : Pizza) (job : Job) (rest : List Job)
    (hget : r.Client.Get s req.NamespacedName = Except.ok pizza)
    (hlist : r.Client.List s req.Namespace jobOwnerKey req.Name = Except.ok (job :: rest))
    (updated : Pizza)
    (hupd : updated =
      if (isJobFinished job).1 then
        { pizza with Status := { Price := 123, Status := "Ready to Pickup" } }
      else
        { pizza with Status := { pizza.Status with Status := "Preparingg Pizza" } }) :
    (Reconcile r now s req).result = {} ∧
    (Reconcile r now s req).err = (r.Client.StatusUpdate s updated).1 ∧
    (Reconcile r now s req).calls =
      [Call.get req.NamespacedName, Call.list req.Namespace jobOwnerKey req.Name,
        Call.statusUpdate updated] ∧
    (Reconcile r now s req).store = (r.Client.StatusUpdate s updated).2 := by
  subst hupd
  simp only [Reconcile, hget, hlist]
  rw [dif_pos (by simp)]
  simp only [List.getElem_cons_zero]
  split <;> rename_i h <;> simp [h]

theorem Reconcile_unowned {σ : Type} (r : PizzaReconciler σ) (now : Int) (s : σ)
    (req : Request) (pizza : Pizza)
    (hget : r.Client.Get s req.NamespacedName = Except.ok pizza)
    (hlist : r.Client.List s req.Namespace jobOwnerKey req.Name = Except.ok []) :
    (∀ e, PrepareSpec r now pizza = Except.error e →
      Reconcile r now s req =
        { result := {}, err := some e
          calls := [Call.get req.NamespacedName, Call.list req.Namespace jobOwnerKey req.Name]
          logs := [LogEntry.error e "unable to construct job from template"], store := s }) ∧
    (∀ job, PrepareSpec r now pizza = Except.ok job →
      (Reconcile r now s req).result = {} ∧
      (Reconcile r now s req).err = (r.Client.Create s job).1 ∧
      (Reconcile r now s req).calls =
        [Call.get req.NamespacedName, Call.list req.Namespace jobOwnerKey req.Name,
          Call.create job] ∧
      (Reconcile r now s req).store = (r.Client.Create s job).2) := by
  constructor
  · intro e he
    simp [Reconcile, hget, hlist, he]
  · intro job hjob
    simp only [Reconcile, hget, hlist, hjob]
    rw [dif_neg (by simp)]
    split <;> rename_i h <;> simp [h]

/-! ## C3: `isJobFinished` -/

/-- C3. For every Job, `isJobFinished` returns true exactly when the condition list holds a
condition of type Complete or Failed with status True; when it returns true the returned
type is that of the first such condition in list order; when it returns false the returned
type is the empty string; and a list in which every condition has a status other than True
or a type other than Complete and Failed is not finished. -/
theorem isJobFinished_spec (job : Job) :
    ((isJobFinished job).1 = true ↔
      ∃ c ∈ job.Status.Conditions,
        (c.Type_ = "Complete" ∨ c.Type_ = "Failed") ∧ c.Status = "True") ∧
    ((isJobFinished job).1 = true →
      ∃ pre c post, job.Status.Conditions = pre ++ c :: post ∧
        (∀ d ∈ pre, ¬((d.Type_ = "Complete" ∨ d.Type_ = "Failed") ∧ d.Status = "True")) ∧
        ((c.Type_ = "Complete" ∨ c.Type_ = "Failed") ∧ c.Status = "True") ∧
        (isJobFinished job).2 = c.Type_) ∧
    ((isJobFinished job).1 = false → (isJobFinished job).2 = "") ∧
    ((∀ c ∈ job.Status.Conditions,
        c.Status ≠ "True" ∨ (c.Type_ ≠ "Complete" ∧ c.Type_ ≠ "Failed")) →
      isJobFinished job = (false, "")) := by
  have hiff : (isJobFinished job).1 = true ↔
      ∃ c ∈ job.Status.Conditions,
        (c.Type_ = "Complete" ∨ c.Type_ = "Failed") ∧ c.Status = "True" := by
    constructor
    · intro htrue
      by_contra hnone
      have hall : ∀ c ∈ job.Status.Conditions,
          ¬((c.Type_ = "Complete" ∨ c.Type_ = "Failed") ∧ c.Status = "True") :=
        fun c hc hfin => hnone ⟨c, hc, hfin⟩
      rw [isJobFinished_false_of_unfinished job hall] at htrue
      exact Bool.false_ne_true htrue
    · exact isJobFinished_true_of_finished job
  refine ⟨hiff, ?_, ?_, ?_⟩
  · intro htrue
    obtain ⟨pre, c, post, hsplit, hpre, hc, hloop⟩ :=
      isJobFinished_loop_split job.Status.Conditions (hiff.mp htrue)
    exact ⟨pre, c, post, hsplit, hpre, hc, by simp only [isJobFinished, hloop]⟩
  · intro hfalse
    have hall : ∀ c ∈ job.Status.Conditions,
        ¬((c.Type_ = "Complete" ∨ c.Type_ = "Failed") ∧ c.Status = "True") := by
      intro c hc hfin
      rw [isJobFinished_true_of_finished job ⟨c, hc, hfin⟩] at hfalse
      exact Bool.noConfusion hfalse
    rw [isJobFinished_false_of_unfinished job hall]
  · intro hall
    apply isJobFinished_false_of_unfinished
    intro c hc hfin
    rcases hall c hc with hs | ht
    · exact hs hfin.2
    · rcases hfin.1 with h | h
      · exact ht.1 h
      · exact ht.2 h

/-- C3 at the Job with conditions (Failed, False), (Other, True), (Failed, True),
(Complete, True): the Job is finished and the type returned is that of the third condition,
the first finished one. -/
theorem isJobFinished_spec_witness :
    (isJobFinished (ownedJob
      [{ Type_ := "Failed", Status := "False" }, { Type_ := "Other", Status := "True" },
       { Type_ := "Failed", Status := "True" }, { Type_ := "Complete", Status := "True" }])).1
      = true ∧
    (isJobFinished (ownedJob
      [{ Type_ := "Failed", Status := "False" }, { Type_ := "Other", Status := "True" },
       { Type_ := "Failed", Status := "True" }, { Type_ := "Complete", Status := "True" }])).2
      = "Failed" ∧
    ∃ pre c post,
      (ownedJob
        [{ Type_ := "Failed", Status := "False" }, { Type_ := "Other", Status := "True" },
         { Type_ := "Failed", Status := "True" },
         { Type_ := "Complete", Status := "True" }]).Status.Conditions = pre ++ c :: post ∧
      (∀ d ∈ pre, ¬((d.Type_ = "Complete" ∨ d.Type_ = "Failed") ∧ d.Status = "True")) ∧
      ((c.Type_ = "Complete" ∨ c.Type_ = "Failed") ∧ c.Status = "True") ∧
      (isJobFinished (ownedJob
        [{ Type_ := "Failed", Status := "False" }, { Type_ := "Other", Status := "True" },
         { Type_ := "Failed", Status := "True" },
         { Type_ := "Complete", Status := "True" }])).2 = c.Type_ :=
  ⟨by decide, by decide, (isJobFinished_spec _).2.1 (by decide)⟩

/-! ## C6, C8: failed reads -/

/-- C6. For every request for which the Order lookup reports not-found, `Reconcile` returns
the empty result and a nil error, issues the lookup and no other call (no list, no create,
no status update), and leaves the store as it was. -/
theorem Reconcile_not_found {σ : Type} (r : PizzaReconciler σ) (now : Int) (s : σ)
    (req : Request) (msg : String)
    (hget : r.Client.Get s req.NamespacedName = Except.error (Error.notFound msg)) :
    (Reconcile r now s req).result = {} ∧
    (Reconcile r now s req).err = none ∧
    (Reconcile r now s req).calls = [Call.get req.NamespacedName] ∧
    (Reconcile r now s req).store = s := by
  rw [Reconcile_get_error r now s req _ hget]
  exact ⟨rfl, rfl, rfl, rfl⟩

/-- C6 at the empty in-memory store and the request for `margherita`. -/
theorem Reconcile_not_found_witness :
    (Reconcile (memReconciler sampleGV sampleScheme {}) 1600000000 storeEmpty
      margheritaReq).result = {} ∧
    (Reconcile (memReconciler sampleGV sampleScheme {}) 1600000000 storeEmpty
      margheritaReq).err = none ∧
    (Reconcile (memReconciler sampleGV sampleScheme {}) 1600000000 storeEmpty
      margheritaReq).calls = [Call.get margheritaReq.NamespacedName] ∧
    (Reconcile (memReconciler sampleGV sampleScheme {}) 1600000000 storeEmpty
      margheritaReq).store = storeEmpty :=
  Reconcile_not_found (memReconciler sampleGV sampleScheme {}) 1600000000 storeEmpty
    margheritaReq "margherita" rfl

/-- C8. For every existing Order, if the owned-Job list query fails with an error,
`Reconcile` returns that error, issues the lookup and the list query and no other call (no
create, no status update), and leaves the store as it was. -/
theorem Reconcile_list_failure {σ : Type} (r : PizzaReconciler σ) (now : Int) (s : σ)
    (req : Request) (pizza : Pizza) (e : Error)
    (hget : r.Client.Get s req.NamespacedName = Except.ok pizza)
    (hlist : r.Client.List s req.Namespace jobOwnerKey req.Name = Except.error e) :
    (Reconcile r now s req).err = some e ∧
    (Reconcile r now s req).calls =
      [Call.get req.NamespacedName, Call.list req.Namespace jobOwnerKey req.Name] ∧
    (∀ job, Call.create job ∉ (Reconcile r now s req).calls) ∧
    (∀ p, Call.statusUpdate p ∉ (Reconcile r now s req).calls) ∧
    (Reconcile r now s req).store = s := by
  rw [Reconcile_list_error r now s req pizza e hget hlist]
  refine ⟨rfl, rfl, ?_, ?_, rfl⟩
  · intro job hmem
    simp at hmem
  · intro p hmem
    simp at hmem

/-- C8 at the store holding `margherita` and no Job, with the list query made to fail: the
error comes back and no Job is created although no owned Job exists. -/
theorem Reconcile_list_failure_witness :
    (Reconcile (memReconciler sampleGV sampleScheme { list := some (Error.other "timeout") })
      1600000000 storeNoJob margheritaReq).err = some (Error.other "timeout") ∧
    (Reconcile (memReconciler sampleGV sampleScheme { list := some (Error.other "timeout") })
      1600000000 storeNoJob margheritaReq).calls =
      [Call.get margheritaReq.NamespacedName,
        Call.list margheritaReq.Namespace jobOwnerKey margheritaReq.Name] ∧
    (∀ job, Call.create job ∉
      (Reconcile (memReconciler sampleGV sampleScheme { list := some (Error.other "timeout") })
        1600000000 storeNoJob margheritaReq).calls) ∧
    (∀ p, Call.statusUpdate p ∉
      (Reconcile (memReconciler sampleGV sampleScheme { list := some (Error.other "timeout") })
        1600000000 storeNoJob margheritaReq).calls) ∧
    (Reconcile (memReconciler sampleGV sampleScheme { list := some (Error.other "timeout") })
      1600000000 storeNoJob margheritaReq).store = storeNoJob :=
  Reconcile_list_failure
    (memReconciler sampleGV sampleScheme { list := some (Error.other "timeout") })
    1600000000 storeNoJob margheritaReq margherita (Error.other "timeout") rfl rfl

/-! ## C1, C2: an owned Job exists -/

/-- C1, as stated, fails. The store holds `margherita` and one owned Job with an empty
condition list (so the first owned Job is not finished); after `Reconcile` the stored phase
is the literal of the source, which is not the string "Preparing". -/
theorem Reconcile_unfinished_phase_counterexample :
    MemStore.get storeRunning margheritaReq.NamespacedName = Except.ok margherita ∧
    MemStore.list sampleGV storeRunning margheritaReq.Namespace jobOwnerKey margheritaReq.Name
      = Except.ok [ownedJob []] ∧
    (ownedJob []).Status.Conditions = [] ∧
    (Reconcile (memReconciler sampleGV sampleScheme {}) 1600000000 storeRunning
      margheritaReq).err = none ∧
    storedPhase
      (Reconcile (memReconciler sampleGV sampleScheme {}) 1600000000 storeRunning
        margheritaReq).store margheritaReq.NamespacedName = some "Preparingg Pizza" ∧
    storedPhase
      (Reconcile (memReconciler sampleGV sampleScheme {}) 1600000000 storeRunning
        margheritaReq).store margheritaReq.NamespacedName ≠ some "Preparing" :=
  ⟨rfl, rfl, rfl, by decide, by decide, by decide⟩

/-- C1, amended. There is one fixed phase string, of the form "Preparing", some text,
" Pizza" (so it is not the string "Preparing" and not "Ready to Pickup"), such that for
every Order that exists and whose owned-Job list is non-empty with a first Job that is not
finished (no condition of type Complete or Failed with status True, the empty list
included), `Reconcile` issues exactly the lookup, the list query and one status update
carrying the Order as loaded with its phase set to that string and its price untouched,
issues no create, returns the error of the update, and leaves the store as the update leaves
it. -/
theorem Reconcile_unfinished_sets_preparing :
    ∃ mid : String,
      "Preparing" ++ mid ++ " Pizza" ≠ "Preparing" ∧
      "Preparing" ++ mid ++ " Pizza" ≠ "Ready to Pickup" ∧
      ∀ (σ : Type) (r : PizzaReconciler σ) (now : Int) (s : σ) (req : Request)
        (pizza : Pizza) (job : Job) (rest : List Job),
        r.Client.Get s req.NamespacedName = Except.ok pizza →
        r.Client.List s req.Namespace jobOwnerKey req.Name = Except.ok (job :: rest) →
        (∀ c ∈ job.Status.Conditions,
          ¬((c.Type_ = "Complete" ∨ c.Type_ = "Failed") ∧ c.Status = "True")) →
        (Reconcile r now s req).calls =
          [Call.get req.NamespacedName, Call.list req.Namespace jobOwnerKey req.Name,
            Call.statusUpdate
              { pizza with
                Status := { pizza.Status with Status := "Preparing" ++ mid ++ " Pizza" } }] ∧
        (∀ j, Call.create j ∉ (Reconcile r now s req).calls) ∧
        (Reconcile r now s req).result = {} ∧
        (Reconcile r now s req).err =
          (r.Client.StatusUpdate s
            { pizza with
              Status := { pizza.Status with Status := "Preparing" ++ mid ++ " Pizza" } }).1 ∧
        (Reconcile r now s req).store =
          (r.Client.StatusUpdate s
            { pizza with
              Status := { pizza.Status with Status := "Preparing" ++ mid ++ " Pizza" } }).2 := by
  refine ⟨"g", by decide, by decide, ?_⟩
  intro σ r now s req pizza job rest hget hlist hunfinished
  have hphase : "Preparing" ++ "g" ++ " Pizza" = "Preparingg Pizza" := by decide
  rw [hphase]
  obtain ⟨hres, herr, hcalls, hstore⟩ :=
    Reconcile_owned r now s req pizza job rest hget hlist
      { pizza with Status := { pizza.Status with Status := "Preparingg Pizza" } }
      (by rw [isJobFinished_false_of_unfinished job hunfinished]; rfl)
  refine ⟨hcalls, ?_, hres, herr, hstore⟩
  intro j hmem
  rw [hcalls] at hmem
  simp at hmem

/-- C1, amended, at the store holding `margherita` and one owned Job without conditions:
the one status update carries a phase of the form "Preparing", some text, " Pizza", and no
Job is created. -/
theorem Reconcile_unfinished_sets_preparing_witness :
    ∃ mid : String,
      (Reconcile (memReconciler sampleGV sampleScheme {}) 1600000000 storeRunning
        margheritaReq).calls =
        [Call.get margheritaReq.NamespacedName,
          Call.list margheritaReq.Namespace jobOwnerKey margheritaReq.Name,
          Call.statusUpdate
            { margherita with
              Status :=
                { margherita.Status with Status := "Preparing" ++ mid ++ " Pizza" } }] ∧
      (∀ j, Call.create j ∉
        (Reconcile (memReconciler sampleGV sampleScheme {}) 1600000000 storeRunning
          margheritaReq).calls) := by
  obtain ⟨mid, _, _, h⟩ := Reconcile_unfinished_sets_preparing
  have hrun := h MemStore (memReconciler sampleGV sampleScheme {}) 1600000000 storeRunning
    margheritaReq margherita (ownedJob []) [] rfl rfl (by decide)
  exact ⟨mid, hrun.1, hrun.2.1⟩

/-- C2. For every Order that exists and whose owned-Job list is non-empty with a finished
first Job (a condition of type Complete or Failed with status True), `Reconcile` issues
exactly the lookup, the list query and one status update carrying the Order as loaded with
its status set to phase "Ready to Pickup" and price 123, whatever the Order and the Job
hold; it issues no create, returns the error of the update, and leaves the store as the
update leaves it. -/
theorem Reconcile_finished_sets_ready {σ : Type} (r : PizzaReconciler σ) (now : Int) (s : σ)
    (req : Request) (pizza : Pizza) (job : Job) (rest : List Job)
    (hget : r.Client.Get s req.NamespacedName = Except.ok pizza)
    (hlist : r.Client.List s req.Namespace jobOwnerKey req.Name = Except.ok (job :: rest))
    (hfinished : ∃ c ∈ job.Status.Conditions,
      (c.Type_ = "Complete" ∨ c.Type_ = "Failed") ∧ c.Status = "True") :
    (Reconcile r now s req).calls =
      [Call.get req.NamespacedName, Call.list req.Namespace jobOwnerKey req.Name,
        Call.statusUpdate
          { pizza with Status := { Price := 123, Status := "Ready to Pickup" } }] ∧
    (∀ j, Call.create j ∉ (Reconcile r now s req).calls) ∧
    (Reconcile r now s req).result = {} ∧
    (Reconcile r now s req).err =
      (r.Client.StatusUpdate s
        { pizza with Status := { Price := 123, Status := "Ready to Pickup" } }).1 ∧
    (Reconcile r now s req).store =
      (r.Client.StatusUpdate s
        { pizza with Status := { Price := 123, Status := "Ready to Pickup" } }).2 := by
  obtain ⟨hres, herr, hcalls, hstore⟩ :=
    Reconcile_owned r now s req pizza job rest hget hlist
      { pizza with Status := { Price := 123, Status := "Ready to Pickup" } }
      (by rw [isJobFinished_true_of_finished job hfinished]; rfl)
  refine ⟨hcalls, ?_, hres, herr, hstore⟩
  intro j hmem
  rw [hcalls] at hmem
  simp at hmem

/-- C2 at the store holding `margherita` and one owned Job reporting (Complete, True): the
update carries phase "Ready to Pickup" and price 123, it succeeds, and the store then holds
the Order with that status and the Job it held. -/
theorem Reconcile_finished_sets_ready_witness :
    (Reconcile (memReconciler sampleGV sampleScheme {}) 1600000000 storeComplete
      margheritaReq).calls =
      [Call.get margheritaReq.NamespacedName,
        Call.list margheritaReq.Namespace jobOwnerKey margheritaReq.Name,
        Call.statusUpdate
          { margherita with Status := { Price := 123, Status := "Ready to Pickup" } }] ∧
    (Reconcile (memReconciler sampleGV sampleScheme {}) 1600000000 storeComplete
      margheritaReq).err = none ∧
    (Reconcile (memReconciler sampleGV sampleScheme {}) 1600000000 storeComplete
      margheritaReq).store =
      { pizzas := [{ margherita with Status := { Price := 123, Status := "Ready to Pickup" } }]
        jobs := [ownedJob [{ Type_ := "Complete", Status := "True" }]] } :=
  have hrun := Reconcile_finished_sets_ready (memReconciler sampleGV sampleScheme {})
    1600000000 storeComplete margheritaReq margherita
    (ownedJob [{ Type_ := "Complete", Status := "True" }]) [] rfl rfl
    ⟨{ Type_ := "Complete", Status := "True" }, by decide, by decide⟩
  ⟨hrun.1, hrun.2.2.2.1.trans (by decide), hrun.2.2.2.2.trans (by decide)⟩

/-! ## C9: `PrepareSpec` -/

/-- C9. For every Order and clock reading: when ownership stamping of the Job literal
succeeds, `PrepareSpec` returns the stamped Job, whose name is the Order name followed by
"-" and the decimal clock reading, whose namespace is that of the Order, whose label and
annotation maps are empty and not nil, whose spec is the template spec of the Order, and
whose controller owner is a back-reference naming the Order (its name and UID, flagged as
controller); when stamping fails with an error, `PrepareSpec` returns that error and no
Job, and a `Reconcile` that reaches it (the Order exists and owns no Job) issues no create,
leaves the store as it was and returns that error. -/
theorem PrepareSpec_spec {σ : Type} (r : PizzaReconciler σ) (now : Int) (pizza : Pizza) :
    (∀ stamped, SetControllerReference pizza (PrepareSpec.job now pizza) r.Scheme
        = Except.ok stamped →
      PrepareSpec r now pizza = Except.ok stamped ∧
      stamped.ObjectMeta.Name = pizza.ObjectMeta.Name ++ "-" ++ toString now ∧
      stamped.ObjectMeta.Namespace = pizza.ObjectMeta.Namespace ∧
      stamped.ObjectMeta.Labels = some [] ∧
      stamped.ObjectMeta.Annotations = some [] ∧
      stamped.Spec = pizza.Spec.JobTemplate.Spec ∧
      ∃ owner, GetControllerOf stamped = some owner ∧
        owner.Name = pizza.ObjectMeta.Name ∧ owner.UID = pizza.ObjectMeta.UID ∧
        owner.Controller = some true) ∧
    (∀ e, SetControllerReference pizza (PrepareSpec.job now pizza) r.Scheme
        = Except.error e →
      PrepareSpec r now pizza = Except.error e ∧
      ∀ (s : σ) (req : Request),
        r.Client.Get s req.NamespacedName = Except.ok pizza →
        r.Client.List s req.Namespace jobOwnerKey req.Name = Except.ok [] →
        (Reconcile r now s req).err = some e ∧
        (∀ j, Call.create j ∉ (Reconcile r now s req).calls) ∧
        (Reconcile r now s req).store = s) := by
  constructor
  · intro stamped hstamp
    have hprep : PrepareSpec r now pizza = Except.ok stamped := by
      simp only [PrepareSpec, hstamp]
    refine ⟨hprep, ?_⟩
    unfold SetControllerReference at hstamp
    cases hgvk : r.Scheme.pizzaGVK with
    | none => simp [hgvk] at hstamp
    | some gvk =>
      simp only [hgvk, Except.ok.injEq] at hstamp
      subst hstamp
      refine ⟨rfl, rfl, rfl, rfl, rfl, NewControllerRef pizza gvk, ?_, rfl, rfl, rfl⟩
      simp [GetControllerOf, PrepareSpec.job, NewControllerRef]
  · intro e hstamp
    have hprep : PrepareSpec r now pizza = Except.error e := by
      simp only [PrepareSpec, hstamp]
    refine ⟨hprep, ?_⟩
    intro s req hget hlist
    rw [(Reconcile_unowned r now s req pizza hget hlist).1 e hprep]
    refine ⟨rfl, ?_, rfl⟩
    intro j hmem
    simp at hmem

/-- C9 at `margherita` and the clock reading 1600000000: under the scheme that registers the
Pizza type the Job is named `margherita-1600000000` and its controller owner is the
back-reference to `margherita`; under the scheme that does not, `PrepareSpec` fails and
`Reconcile` returns the error with the store unchanged. -/
theorem PrepareSpec_spec_witness :
    (PrepareSpec (memReconciler sampleGV sampleScheme {}) 1600000000 margherita
        = Except.ok (ownedJob []) ∧
      (ownedJob []).ObjectMeta.Name = "margherita-1600000000" ∧
      GetControllerOf (ownedJob []) = some margheritaRef) ∧
    (PrepareSpec (memReconciler sampleGV emptyScheme {}) 1600000000 margherita
        = Except.error (Error.notRegistered "no kind is registered for the type v1.Pizza") ∧
      (Reconcile (memReconciler sampleGV emptyScheme {}) 1600000000 storeNoJob
        margheritaReq).err
        = some (Error.notRegistered "no kind is registered for the type v1.Pizza") ∧
      (Reconcile (memReconciler sampleGV emptyScheme {}) 1600000000 storeNoJob
        margheritaReq).store = storeNoJob) :=
  have hok := (PrepareSpec_spec (memReconciler sampleGV sampleScheme {}) 1600000000
    margherita).1 (ownedJob []) rfl
  have hfail := (PrepareSpec_spec (memReconciler sampleGV emptyScheme {}) 1600000000
    margherita).2 (Error.notRegistered "no kind is registered for the type v1.Pizza") rfl
  have hrun := hfail.2 storeNoJob margheritaReq rfl rfl
  ⟨⟨hok.1, by decide, by decide⟩, hfail.1, hrun.1, hrun.2.2⟩

/-! ## C10: the index key-extraction function -/

/-- C10. For every Job and group/version string, the key-extraction function returns at
most one string; it returns exactly the one-element list of a name if and only if the
controller owner of the Job (the owner reference `GetControllerOf` finds) has that name,
an APIVersion equal to the group/version string and the kind "Pizza"; and it returns no key
if and only if the Job has no controller owner or that owner is of a different kind or
group/version. For a Job with at most one owner reference flagged as controller, having
such a controller owner is the same as having, among its owner references, one flagged as
controller with that APIVersion, kind and name. -/
theorem indexFunc_spec (gvStr : String) (job : Job) :
    (indexFunc gvStr job).length ≤ 1 ∧
    (∀ name, indexFunc gvStr job = [name] ↔
      ∃ owner, GetControllerOf job = some owner ∧
        owner.APIVersion = gvStr ∧ owner.Kind = "Pizza" ∧ owner.Name = name) ∧
    (indexFunc gvStr job = [] ↔
      (GetControllerOf job = none ∨
        ∃ owner, GetControllerOf job = some owner ∧
          (owner.APIVersion ≠ gvStr ∨ owner.Kind ≠ "Pizza"))) ∧
    ((job.ObjectMeta.OwnerReferences.filter (fun ref => ref.Controller == some true)).length ≤ 1 →
      ∀ name, indexFunc gvStr job = [name] ↔
        ∃ owner ∈ job.ObjectMeta.OwnerReferences, owner.Controller = some true ∧
          owner.APIVersion = gvStr ∧ owner.Kind = "Pizza" ∧ owner.Name = name) := by
  have hkey : ∀ name, indexFunc gvStr job = [name] ↔
      ∃ owner, GetControllerOf job = some owner ∧
        owner.APIVersion = gvStr ∧ owner.Kind = "Pizza" ∧ owner.Name = name := by
    intro name
    unfold indexFunc
    cases hown : GetControllerOf job with
    | none => simp
    | some owner =>
      by_cases hmatch : owner.APIVersion ≠ gvStr ∨ owner.Kind ≠ "Pizza"
      · simp only [hmatch, if_true]
        constructor
        · intro h
          cases h
        · rintro ⟨o, ho, hv, hk, _⟩
          cases ho
          rcases hmatch with h | h
          · exact absurd hv h
          · exact absurd hk h
      · simp only [hmatch, if_false]
        have hv : owner.APIVersion = gvStr := by
          by_contra h
          exact hmatch (Or.inl h)
        have hk : owner.Kind = "Pizza" := by
          by_contra h
          exact hmatch (Or.inr h)
        constructor
        · intro h
          exact ⟨owner, rfl, hv, hk, by simpa using h⟩
        · rintro ⟨o, ho, _, _, hn⟩
          cases ho
          rw [hn]
  refine ⟨?_, hkey, ?_, ?_⟩
  · unfold indexFunc
    cases GetControllerOf job with
    | none => simp
    | some owner =>
      by_cases hmatch : owner.APIVersion ≠ gvStr ∨ owner.Kind ≠ "Pizza"
      · simp [hmatch]
      · simp only [hmatch, if_false, List.length_singleton, le_refl]
  · unfold indexFunc
    cases hown : GetControllerOf job with
    | none => simp
    | some owner =>
      by_cases hmatch : owner.APIVersion ≠ gvStr ∨ owner.Kind ≠ "Pizza"
      · simp only [hmatch, if_true, true_iff]
        exact Or.inr ⟨owner, rfl, hmatch⟩
      · simp only [hmatch, if_false]
        constructor
        · intro h
          cases h
        · rintro (h | ⟨o, ho, hne⟩)
          · cases h
          · cases ho
            exact absurd hne hmatch
  · intro hone name
    rw [hkey name]
    have hhead : ∀ refs : List OwnerReference,
        (refs.filter (fun ref => ref.Controller == some true)).length ≤ 1 →
        ∀ o, (refs.find? (fun ref => ref.Controller == some true) = some o ↔
          o ∈ refs ∧ o.Controller = some true) := by
      intro refs
      induction refs with
      | nil => intro _ o; simp
      | cons a as ih =>
        intro hlen o
        by_cases ha : a.Controller = some true
        · have hfilter : (a :: as).filter (fun ref => ref.Controller == some true)
              = a :: as.filter (fun ref => ref.Controller == some true) := by
            simp [List.filter_cons, ha]
          rw [hfilter] at hlen
          have hnil : as.filter (fun ref => ref.Controller == some true) = [] := by
            apply List.eq_nil_of_length_eq_zero
            simp only [List.length_cons] at hlen
            omega
          have hnone : ∀ x ∈ as, ¬ x.Controller = some true := by
            intro x hx hxc
            have : x ∈ as.filter (fun ref => ref.Controller == some true) := by
              simp [List.mem_filter, hx, hxc]
            rw [hnil] at this
            cases this
          simp only [List.find?_cons, ha, beq_self_eq_true, Option.some.injEq, List.mem_cons]
          constructor
          · intro h
            subst h
            exact ⟨Or.inl rfl, ha⟩
          · rintro ⟨h | h, hc⟩
            · exact h.symm
            · exact absurd hc (hnone o h)
        · have hfilter : (a :: as).filter (fun ref => ref.Controller == some true)
              = as.filter (fun ref => ref.Controller == some true) := by
            simp [List.filter_cons, ha]
          rw [hfilter] at hlen
          have hfind : (a :: as).find? (fun ref => ref.Controller == some true)
              = as.find? (fun ref => ref.Controller == some true) := by
            simp [List.find?_cons, ha]
          rw [hfind, ih hlen o]
          simp only [List.mem_cons]
          constructor
          · rintro ⟨h, hc⟩
            exact ⟨Or.inr h, hc⟩
          · rintro ⟨h | h, hc⟩
            · subst h
              exact absurd hc ha
            · exact ⟨h, hc⟩
    constructor
    · rintro ⟨o, ho, hv, hk, hn⟩
      have := (hhead _ hone o).mp ho
      exact ⟨o, this.1, this.2, hv, hk, hn⟩
    · rintro ⟨o, hmem, hc, hv, hk, hn⟩
      exact ⟨o, (hhead _ hone o).mpr ⟨hmem, hc⟩, hv, hk, hn⟩

/-- C10 at the Job owned by `margherita`, which has one owner reference, flagged as
controller: the key is the owner name. -/
theorem indexFunc_spec_witness :
    indexFunc "resturant.foodie.io/v1" (ownedJob []) = ["margherita"] ↔
      ∃ owner ∈ (ownedJob []).ObjectMeta.OwnerReferences, owner.Controller = some true ∧
        owner.APIVersion = "resturant.foodie.io/v1" ∧ owner.Kind = "Pizza" ∧
        owner.Name = "margherita" :=
  (indexFunc_spec "resturant.foodie.io/v1" (ownedJob [])).2.2.2 (by decide) "margherita"

/-! ## Lemmas on the in-memory store -/

theorem withFaults_none_get {σ : Type} (f : Faults) (c : Client σ) (s : σ)
    (key : NamespacedName) (hf : f.get = none) : (withFaults f c).Get s key = c.Get s key := by
  simp only [withFaults, hf]

theorem withFaults_none_list {σ : Type} (f : Faults) (c : Client σ) (s : σ)
    (ns field value : String) (hf : f.list = none) :
    (withFaults f c).List s ns field value = c.List s ns field value := by
  simp only [withFaults, hf]

theorem withFaults_get_ok {σ : Type} (f : Faults) (c : Client σ) (s : σ)
    (key : NamespacedName) (p : Pizza) (h : (withFaults f c).Get s key = Except.ok p) :
    c.Get s key = Except.ok p := by
  cases hf : f.get with
  | none => rw [withFaults_none_get f c s key hf] at h; exact h
  | some e => simp [withFaults, hf] at h

theorem withFaults_list_ok {σ : Type} (f : Faults) (c : Client σ) (s : σ)
    (ns field value : String) (js : List Job)
    (h : (withFaults f c).List s ns field value = Except.ok js) :
    c.List s ns field value = Except.ok js := by
  cases hf : f.list with
  | none => rw [withFaults_none_list f c s ns field value hf] at h; exact h
  | some e => simp [withFaults, hf] at h

theorem pizzaHasKey_iff (key : NamespacedName) (p : Pizza) :
    pizzaHasKey key p = true ↔
      p.ObjectMeta.Namespace = key.Namespace ∧ p.ObjectMeta.Name = key.Name := by
  simp [pizzaHasKey]

theorem MemStore.find_of_get (s : MemStore) (key : NamespacedName) (p : Pizza)
    (h : s.get key = Except.ok p) : s.pizzas.find? (pizzaHasKey key) = some p := by
  unfold MemStore.get at h
  cases hf : s.pizzas.find? (pizzaHasKey key) with
  | none => simp [hf] at h
  | some q =>
    simp only [hf, Except.ok.injEq] at h
    rw [h]

theorem MemStore.key_of_get (s : MemStore) (key : NamespacedName) (p : Pizza)
    (h : s.get key = Except.ok p) :
    p.ObjectMeta.Namespace = key.Namespace ∧ p.ObjectMeta.Name = key.Name :=
  (pizzaHasKey_iff key p).mp (List.find?_some (MemStore.find_of_get s key p h))

theorem MemStore.updateStatus_of_get (s : MemStore) (key : NamespacedName) (p q : Pizza)
    (hget : s.get key = Except.ok p) (hmeta : q.ObjectMeta = p.ObjectMeta) :
    (MemStore.updateStatus s q).1 = none ∧
    (MemStore.updateStatus s q).2.jobs = s.jobs ∧
    (MemStore.updateStatus s q).2.get key = Except.ok { p with Status := q.Status } := by
  have hfind := MemStore.find_of_get s key p hget
  have hkey := MemStore.key_of_get s key p hget
  have hq : ({ Namespace := q.ObjectMeta.Namespace, Name := q.ObjectMeta.Name }
      : NamespacedName) = key := by
    rw [hmeta, hkey.1, hkey.2]
  have hany : s.pizzas.any (pizzaHasKey key) = true :=
    List.any_eq_true.mpr ⟨p, List.mem_of_find?_eq_some hfind, List.find?_some hfind⟩
  have hcomp : (pizzaHasKey key ∘
      fun x => if pizzaHasKey key x = true then { x with Status := q.Status } else x)
      = pizzaHasKey key := by
    funext x
    by_cases hx : pizzaHasKey key x = true
    · simp only [Function.comp, hx, if_true]
      simpa [pizzaHasKey] using hx
    · have hfalse : pizzaHasKey key x = false := Bool.eq_false_iff.mpr hx
      simp [Function.comp, hfalse]
  simp only [MemStore.updateStatus, hq, hany, if_true]
  refine ⟨trivial, trivial, ?_⟩
  simp only [MemStore.get, List.find?_map, hcomp, hfind, Option.map_some']
  rw [if_pos (List.find?_some hfind)]

theorem MemStore.create_ok (s : MemStore) (j : Job) (h : (MemStore.create s j).1 = none) :
    (MemStore.create s j).2 = { s with jobs := s.jobs ++ [j] } := by
  by_cases hany : s.jobs.any
      (jobHasKey { Namespace := j.ObjectMeta.Namespace, Name := j.ObjectMeta.Name }) = true
  · simp [MemStore.create, hany] at h
  · simp [MemStore.create, hany]

theorem PrepareSpec_ok_eq {σ : Type} (r : PizzaReconciler σ) (now : Int) (pizza : Pizza)
    (job : Job) (h : PrepareSpec r now pizza = Except.ok job) :
    ∃ gvk, r.Scheme.pizzaGVK = some gvk ∧
      job = { PrepareSpec.job now pizza with
        ObjectMeta := { (PrepareSpec.job now pizza).ObjectMeta with
          OwnerReferences := [NewControllerRef pizza gvk] } } := by
  unfold PrepareSpec SetControllerReference at h
  cases hgvk : r.Scheme.pizzaGVK with
  | none => simp [hgvk] at h
  | some gvk =>
    simp only [hgvk, Except.ok.injEq] at h
    exact ⟨gvk, rfl, by rw [← h]; rfl⟩

/-! ## C4: no owned Job -/

/-- C4. For every Order that exists in the store and whose owned-Job list is empty, when
`PrepareSpec` yields a Job and the store create of it succeeds, `Reconcile` succeeds and
issues exactly the lookup, the list query and one create, for that Job; the Job is named by
the Order name, "-" and the clock reading, and its controller owner is a back-reference
naming the Order; no status update is issued; and in the store the Orders, among them the
Order with its status, are as before, the Job being added to the Jobs. -/
theorem Reconcile_unowned_creates_job (gv : GroupVersion) (scheme : Scheme) (now : Int)
    (s : MemStore) (req : Request) (pizza : Pizza) (job : Job)
    (hget : s.get req.NamespacedName = Except.ok pizza)
    (hlist : MemStore.list gv s req.Namespace jobOwnerKey req.Name = Except.ok [])
    (hjob : PrepareSpec (memReconciler gv scheme {}) now pizza = Except.ok job)
    (hcreate : (MemStore.create s job).1 = none) :
    (Reconcile (memReconciler gv scheme {}) now s req).err = none ∧
    (Reconcile (memReconciler gv scheme {}) now s req).calls =
      [Call.get req.NamespacedName, Call.list req.Namespace jobOwnerKey req.Name,
        Call.create job] ∧
    (∀ p, Call.statusUpdate p ∉ (Reconcile (memReconciler gv scheme {}) now s req).calls) ∧
    pizza.ObjectMeta.Name = req.Name ∧
    job.ObjectMeta.Name = pizza.ObjectMeta.Name ++ "-" ++ toString now ∧
    (∃ owner, GetControllerOf job = some owner ∧
      owner.Name = pizza.ObjectMeta.Name ∧ owner.UID = pizza.ObjectMeta.UID ∧
      owner.Controller = some true) ∧
    (Reconcile (memReconciler gv scheme {}) now s req).store.pizzas = s.pizzas ∧
    (Reconcile (memReconciler gv scheme {}) now s req).store.get req.NamespacedName
      = Except.ok pizza ∧
    (Reconcile (memReconciler gv scheme {}) now s req).store.jobs = s.jobs ++ [job] := by
  obtain ⟨_, herr, hcalls, hstore⟩ :=
    (Reconcile_unowned (memReconciler gv scheme {}) now s req pizza hget hlist).2 job hjob
  have hstore2 : (Reconcile (memReconciler gv scheme {}) now s req).store
      = { s with jobs := s.jobs ++ [job] } := by
    rw [hstore]
    exact MemStore.create_ok s job hcreate
  obtain ⟨gvk, _, hjobeq⟩ := PrepareSpec_ok_eq (memReconciler gv scheme {}) now pizza job hjob
  refine ⟨?_, hcalls, ?_, (MemStore.key_of_get s _ pizza hget).2, ?_, ?_, ?_, ?_, ?_⟩
  · rw [herr]
    exact hcreate
  · intro p hmem
    rw [hcalls] at hmem
    simp at hmem
  · rw [hjobeq]
    rfl
  · refine ⟨NewControllerRef pizza gvk, ?_, rfl, rfl, rfl⟩
    rw [hjobeq]
    simp [GetControllerOf, NewControllerRef]
  · rw [hstore2]
  · rw [hstore2]
    exact hget
  · rw [hstore2]

/-- C4 at the store holding `margherita` with an empty template and no Job: one Job named
`margherita-1600000000` is created, its controller owner is the back-reference to
`margherita`, and the Order is stored as before. -/
theorem Reconcile_unowned_creates_job_witness :
    (Reconcile (memReconciler sampleGV sampleScheme {}) 1600000000 storeNoJob
      margheritaReq).calls =
      [Call.get margheritaReq.NamespacedName,
        Call.list margheritaReq.Namespace jobOwnerKey margheritaReq.Name,
        Call.create (ownedJob [])] ∧
    (ownedJob []).ObjectMeta.Name = "margherita-1600000000" ∧
    GetControllerOf (ownedJob []) = some margheritaRef ∧
    (Reconcile (memReconciler sampleGV sampleScheme {}) 1600000000 storeNoJob
      margheritaReq).store.get margheritaReq.NamespacedName = Except.ok margherita ∧
    (Reconcile (memReconciler sampleGV sampleScheme {}) 1600000000 storeNoJob
      margheritaReq).store.jobs = [ownedJob []] :=
  have hrun := Reconcile_unowned_creates_job sampleGV sampleScheme 1600000000 storeNoJob
    margheritaReq margherita (ownedJob []) rfl rfl rfl (by decide)
  ⟨hrun.2.1, by decide, by decide, hrun.2.2.2.2.2.2.2.1, hrun.2.2.2.2.2.2.2.2⟩

/-! ## C5: idempotence -/

/-- C5. Start from any store in which the Order exists and owns no Job, and run
`Reconcile` for it twice in succession, at any two clock readings, with the first run
succeeding and the owner-name index listing, for the second run, the Job the first run
created. Then the second run succeeds and issues no create, and afterwards the Order owns
exactly one Job, the one the first run created, which is the only Job added to the store. -/
theorem Reconcile_twice_one_job (gv : GroupVersion) (scheme : Scheme) (t1 t2 : Int)
    (s : MemStore) (req : Request) (pizza : Pizza) (out1 out2 : Outcome MemStore)
    (hget : s.get req.NamespacedName = Except.ok pizza)
    (hnone : ownedJobs gv s req = [])
    (hrun1 : out1 = Reconcile (memReconciler gv scheme {}) t1 s req)
    (hrun2 : out2 = Reconcile (memReconciler gv scheme {}) t2 out1.store req)
    (hok1 : out1.err = none)
    (hsees : ∀ j, Call.create j ∈ out1.calls → j ∈ ownedJobs gv out1.store req) :
    out2.err = none ∧
    (∀ j, Call.create j ∉ out2.calls) ∧
    ∃ job, Call.create job ∈ out1.calls ∧
      ownedJobs gv out2.store req = [job] ∧
      (ownedJobs gv out2.store req).length = 1 ∧
      out2.store.jobs = s.jobs ++ [job] := by
  have hlist : MemStore.list gv s req.Namespace jobOwnerKey req.Name = Except.ok [] := by
    simp only [ownedJobs, MemStore.list, if_true] at hnone
    simp only [MemStore.list, if_true, hnone]
  have hfilter : s.jobs.filter (fun j => j.ObjectMeta.Namespace == req.Namespace &&
      (indexFunc (apiGVStr gv) j).contains req.Name) = [] := by
    simpa only [ownedJobs, MemStore.list, if_true] using hnone
  obtain ⟨hfail, hsucc⟩ :=
    Reconcile_unowned (memReconciler gv scheme {}) t1 s req pizza hget hlist
  cases hprep : PrepareSpec (memReconciler gv scheme {}) t1 pizza with
  | error e =>
    rw [hrun1, hfail e hprep] at hok1
    cases hok1
  | ok job =>
    obtain ⟨_, herr1, hcalls1, hstore1⟩ := hsucc job hprep
    rw [← hrun1] at herr1 hcalls1 hstore1
    have hcreate : (MemStore.create s job).1 = none := by
      rw [← hok1, herr1]
      rfl
    have hs1 : out1.store = { s with jobs := s.jobs ++ [job] } := by
      rw [hstore1]
      exact MemStore.create_ok s job hcreate
    have hmem : job ∈ ownedJobs gv out1.store req :=
      hsees job (by rw [hcalls1]; simp)
    have hpred : (job.ObjectMeta.Namespace == req.Namespace &&
        (indexFunc (apiGVStr gv) job).contains req.Name) = true := by
      rw [hs1] at hmem
      simp only [ownedJobs, MemStore.list, if_true, List.filter_append, hfilter,
        List.nil_append, List.mem_filter] at hmem
      exact hmem.2
    have howned1 : (s.jobs ++ [job]).filter (fun j =>
        j.ObjectMeta.Namespace == req.Namespace &&
          (indexFunc (apiGVStr gv) j).contains req.Name) = [job] := by
      rw [List.filter_append, hfilter, List.nil_append, List.filter_cons, hpred]
      rfl
    have hget1 : out1.store.get req.NamespacedName = Except.ok pizza := by
      rw [hs1]
      exact hget
    have hlist1 : MemStore.list gv out1.store req.Namespace jobOwnerKey req.Name
        = Except.ok [job] := by
      rw [hs1]
      simp only [MemStore.list, if_true, howned1]
    obtain ⟨gvk, _, hjobeq⟩ :=
      PrepareSpec_ok_eq (memReconciler gv scheme {}) t1 pizza job hprep
    have hconds : job.Status.Conditions = [] := by
      rw [hjobeq]
      rfl
    have hunfinished : isJobFinished job = (false, "") := by
      apply isJobFinished_false_of_unfinished
      intro c hc
      rw [hconds] at hc
      cases hc
    obtain ⟨_, herr2, hcalls2, hstore2⟩ :=
      Reconcile_owned (memReconciler gv scheme {}) t2 out1.store req pizza job [] hget1 hlist1
        { pizza with Status := { pizza.Status with Status := "Preparingg Pizza" } }
        (by rw [hunfinished]; rfl)
    rw [← hrun2] at herr2 hcalls2 hstore2
    obtain ⟨hupd_err, hupd_jobs, _⟩ :=
      MemStore.updateStatus_of_get out1.store req.NamespacedName pizza
        { pizza with Status := { pizza.Status with Status := "Preparingg Pizza" } } hget1 rfl
    have hjobs2 : out2.store.jobs = s.jobs ++ [job] := by
      rw [hstore2]
      show (MemStore.updateStatus out1.store _).2.jobs = _
      rw [hupd_jobs, hs1]
    have howned2 : ownedJobs gv out2.store req = [job] := by
      simp only [ownedJobs, MemStore.list, if_true, hjobs2, howned1]
    refine ⟨?_, ?_, job, by rw [hcalls1]; simp, howned2, by rw [howned2]; rfl, hjobs2⟩
    · rw [herr2]
      exact hupd_err
    · intro j hj
      rw [hcalls2] at hj
      simp at hj

/-- C5 at the store holding `margherita` and no Job, with runs at the clock readings
1600000000 and 1600000060: after the second run the Order owns the one Job
`margherita-1600000000`, and the second run issued a status update, not a create. -/
theorem Reconcile_twice_one_job_witness :
    (Reconcile (memReconciler sampleGV sampleScheme {}) 1600000060
      (Reconcile (memReconciler sampleGV sampleScheme {}) 1600000000 storeNoJob
        margheritaReq).store margheritaReq).err = none ∧
    (∀ j, Call.create j ∉
      (Reconcile (memReconciler sampleGV sampleScheme {}) 1600000060
        (Reconcile (memReconciler sampleGV sampleScheme {}) 1600000000 storeNoJob
          margheritaReq).store margheritaReq).calls) ∧
    ownedJobs sampleGV
      (Reconcile (memReconciler sampleGV sampleScheme {}) 1600000060
        (Reconcile (memReconciler sampleGV sampleScheme {}) 1600000000 storeNoJob
          margheritaReq).store margheritaReq).store margheritaReq = [ownedJob []] := by
  have hrun := Reconcile_twice_one_job sampleGV sampleScheme 1600000000 1600000060 storeNoJob
    margheritaReq margherita _ _ rfl (by decide) rfl rfl (by decide)
    (by
      intro j hj
      have hj2 : j = ownedJob [] := by
        have hcalls : (Reconcile (memReconciler sampleGV sampleScheme {}) 1600000000 storeNoJob
            margheritaReq).calls =
            [Call.get margheritaReq.NamespacedName,
              Call.list margheritaReq.Namespace jobOwnerKey margheritaReq.Name,
              Call.create (ownedJob [])] := by decide
        rw [hcalls] at hj
        simpa using hj
      rw [hj2]
      decide)
  refine ⟨hrun.1, hrun.2.1, ?_⟩
  decide

/-! ## C7: convergence without regression -/

theorem runEvents_mem (gv : GroupVersion) (scheme : Scheme) (req : Request)
    (evs : List Event) :
    ∀ (s0 : MemStore) (x : Step), x ∈ runEvents gv scheme req s0 evs →
      ∃ now, x.out = Reconcile (memReconciler gv scheme x.faults) now x.pre req := by
  induction evs with
  | nil =>
    intro s0 x hx
    simp [runEvents] at hx
  | cons ev evs ih =>
    intro s0 x hx
    cases ev with
    | reconcile now f =>
      simp only [runEvents, List.mem_cons] at hx
      rcases hx with rfl | hx
      · exact ⟨now, rfl⟩
      · exact ih _ x hx
    | external change =>
      simp only [runEvents] at hx
      exact ih _ x hx

theorem Reconcile_complete_step (gv : GroupVersion) (scheme : Scheme) (req : Request)
    (f : Faults) (now : Int) (s : MemStore) (h : firstOwnedJobComplete gv req f s) :
    ((Reconcile (memReconciler gv scheme f) now s req).err = none →
      storedPhase (Reconcile (memReconciler gv scheme f) now s req).store req.NamespacedName
        = some "Ready to Pickup") ∧
    (∀ p, Call.statusUpdate p ∈ (Reconcile (memReconciler gv scheme f) now s req).calls →
      p.Status.Status = "Ready to Pickup") ∧
    (∀ j, Call.create j ∉ (Reconcile (memReconciler gv scheme f) now s req).calls) ∧
    ((Reconcile (memReconciler gv scheme f) now s req).err ≠ none →
      (Reconcile (memReconciler gv scheme f) now s req).store = s) := by
  obtain ⟨⟨pizza, hget⟩, job, rest, hlist, c, hc, hctype, hcstatus⟩ := h
  have hfinished : (isJobFinished job).1 = true :=
    isJobFinished_true_of_finished job ⟨c, hc, Or.inl hctype, hcstatus⟩
  obtain ⟨_, herr, hcalls, hstore⟩ :=
    Reconcile_owned (memReconciler gv scheme f) now s req pizza job rest hget hlist
      { pizza with Status := { Price := 123, Status := "Ready to Pickup" } }
      (by rw [hfinished]; rfl)
  have hget0 : s.get req.NamespacedName = Except.ok pizza :=
    withFaults_get_ok f (memClient gv) s req.NamespacedName pizza hget
  have hcallsP : ∀ p, Call.statusUpdate p ∈
      (Reconcile (memReconciler gv scheme f) now s req).calls →
      p.Status.Status = "Ready to Pickup" := by
    intro p hp
    rw [hcalls] at hp
    simp only [List.mem_cons, List.mem_singleton, Call.statusUpdate.injEq, reduceCtorEq,
      false_or, List.not_mem_nil, or_false] at hp
    rw [hp]
  have hcallsJ : ∀ j, Call.create j ∉
      (Reconcile (memReconciler gv scheme f) now s req).calls := by
    intro j hj
    rw [hcalls] at hj
    simp at hj
  cases hf : f.statusUpdate with
  | some e =>
    have hupd : (memReconciler gv scheme f).Client.StatusUpdate s
        { pizza with Status := { Price := 123, Status := "Ready to Pickup" } }
        = (some e, s) := by
      simp only [memReconciler, withFaults, hf]
    rw [hupd] at herr hstore
    refine ⟨?_, hcallsP, hcallsJ, fun _ => hstore⟩
    intro hnone
    rw [herr] at hnone
    cases hnone
  | none =>
    have hupd : (memReconciler gv scheme f).Client.StatusUpdate s
        { pizza with Status := { Price := 123, Status := "Ready to Pickup" } }
        = MemStore.updateStatus s
          { pizza with Status := { Price := 123, Status := "Ready to Pickup" } } := by
      simp only [memReconciler, withFaults, hf, memClient]
    rw [hupd] at herr hstore
    obtain ⟨hupd_err, _, hupd_get⟩ :=
      MemStore.updateStatus_of_get s req.NamespacedName pizza
        { pizza with Status := { Price := 123, Status := "Ready to Pickup" } } hget0 rfl
    refine ⟨?_, hcallsP, hcallsJ, ?_⟩
    · intro _
      rw [hstore]
      simp only [storedPhase, hupd_get]
    · intro hne
      rw [herr, hupd_err] at hne
      exact absurd rfl hne

/-- C7. Take any sequence of events on the store, invocations of `Reconcile` for one
request (each under any fault plan) interleaved with arbitrary changes by others, such that
at every invocation the Order is loaded and the first owned Job listed has a condition
(Complete, True). Then at every invocation of the sequence: if it succeeds, the stored phase
of the Order is "Ready to Pickup" afterwards; every status update it issues carries the
phase "Ready to Pickup", never "Preparing" nor the not-finished literal of the source; it
creates no Job; and if the stored phase was "Ready to Pickup" before, it still is
afterwards, whether the invocation succeeds or fails. -/
theorem Reconcile_converges (gv : GroupVersion) (scheme : Scheme) (req : Request)
    (s0 : MemStore) (evs : List Event)
    (hcomplete : ∀ x ∈ runEvents gv scheme req s0 evs,
      firstOwnedJobComplete gv req x.faults x.pre) :
    ∀ x ∈ runEvents gv scheme req s0 evs,
      (x.out.err = none →
        storedPhase x.out.store req.NamespacedName = some "Ready to Pickup") ∧
      (∀ p, Call.statusUpdate p ∈ x.out.calls →
        p.Status.Status = "Ready to Pickup" ∧ p.Status.Status ≠ "Preparing" ∧
        p.Status.Status ≠ "Preparingg Pizza") ∧
      (∀ j, Call.create j ∉ x.out.calls) ∧
      (storedPhase x.pre req.NamespacedName = some "Ready to Pickup" →
        storedPhase x.out.store req.NamespacedName = some "Ready to Pickup") := by
  intro x hx
  obtain ⟨now, hout⟩ := runEvents_mem gv scheme req evs s0 x hx
  obtain ⟨hready, hupdates, hcreates, hfail⟩ :=
    Reconcile_complete_step gv scheme req x.faults now x.pre (hcomplete x hx)
  rw [← hout] at hready hupdates hcreates hfail
  refine ⟨hready, ?_, hcreates, ?_⟩
  · intro p hp
    have hphase := hupdates p hp
    rw [hphase]
    exact ⟨rfl, by decide, by decide⟩
  · intro hbefore
    by_cases herr : x.out.err = none
    · exact hready herr
    · rw [hfail herr]
      exact hbefore

/-- C7 on a run from the store holding `margherita` and one owned Job reporting
(Complete, True): a reconcile, a reconcile whose status update fails, the arrival of a second
owned Job, and a reconcile. The premise holds at the three invocations, and after each of
them the stored phase is "Ready to Pickup". -/
theorem Reconcile_converges_witness :
    (runEvents sampleGV sampleScheme margheritaReq storeComplete sampleEvents).length = 3 ∧
    (∀ x ∈ runEvents sampleGV sampleScheme margheritaReq storeComplete sampleEvents,
      firstOwnedJobComplete sampleGV margheritaReq x.faults x.pre) ∧
    (∀ x ∈ runEvents sampleGV sampleScheme margheritaReq storeComplete sampleEvents,
      storedPhase x.out.store margheritaReq.NamespacedName = some "Ready to Pickup") := by
  have hcomplete : ∀ x ∈ runEvents sampleGV sampleScheme margheritaReq storeComplete
      sampleEvents, firstOwnedJobComplete sampleGV margheritaReq x.faults x.pre := by
    intro x hx
    simp only [runEvents, sampleEvents, List.mem_cons, List.mem_singleton,
      List.not_mem_nil, or_false] at hx
    rcases hx with rfl | rfl | rfl
    · exact ⟨⟨_, rfl⟩, _, _, rfl, { Type_ := "Complete", Status := "True" },
        by decide, rfl, rfl⟩
    · exact ⟨⟨_, rfl⟩, _, _, rfl, { Type_ := "Complete", Status := "True" },
        by decide, rfl, rfl⟩
    · exact ⟨⟨_, rfl⟩, _, _, rfl, { Type_ := "Complete", Status := "True" },
        by decide, rfl, rfl⟩
  refine ⟨rfl, hcomplete, ?_⟩
  intro x hx
  have hx2 := hx
  simp only [runEvents, sampleEvents, List.mem_cons, List.mem_singleton,
    List.not_mem_nil, or_false] at hx2
  have hstep := Reconcile_converges sampleGV sampleScheme margheritaReq storeComplete
    sampleEvents hcomplete x hx
  rcases hx2 with rfl | rfl | rfl
  · exact hstep.1 (by decide)
  · exact hstep.2.2.2 (by decide)
  · exact hstep.1 (by decide)

end Controllers
